import Mathlib

/-!
Verification of the PM-Internship-Scheme allocation engine.

This file gives a shallow embedding of the allocation-related code of the
repository and proves or refutes the frozen claims about it.

Embedded source functions:
* `multi_round_allotment` and its `build_ranklists` companion
  (src/allotment.py): the multi-round reservation-first allocator.
* `optionC_allotment` (src/optionC_allotment.py): the single-pass
  government-style allocator with the horizontal rural pass.
* `build_ranklists` (src/ranklist_builder.py): the per-position pool builder.
* the reservation-split portion of `generate_internships`
  (src/data_generator.py lines 48-54).

Modelling conventions:
* pandas dataframes become lists of records; Python dicts that are only used
  for keyed lookup become association lists; Python floats become `Rat`
  (every score in the claims is a short decimal literal, on which float
  comparison agrees with rational comparison);
* `sort_values` / `sorted` become an explicit stable insertion sort on the
  score key only, mirroring the absence of any secondary sort key in the
  source;
* the per-position, per-pool integer cursors of `multi_round_allotment` are
  represented by the not-yet-consumed suffix of the pool (the cursor index
  and the suffix determine each other, and the code never reads entries
  before the cursor);
* the `KeyError` raised by `ranklists[iid]` in `optionC_allotment` becomes
  an `Except.error`;
* `list(all_students - set(allocated_student.keys()))` is modelled as a
  first-insertion-order enumeration of the set difference.
-/

namespace PMIS

/-- The five pool / category tags used by both allocators. -/
inductive VCat where
  | SC
  | ST
  | OBC
  | UR
  | RURAL
deriving DecidableEq, Repr

/-- Reservation category of a student (data_generator.py RESERVATION_CATEGORIES). -/
inductive Res where
  | GEN
  | OBC
  | SC
  | ST
deriving DecidableEq, Repr

/-! ## multi_round_allotment (src/allotment.py) -/

/-- One confirmed allocation record appended to `allocations[iid]`:
`(student_id, category, final_score)` where the score is
`score_lookup.get((cand, iid), None)`. -/
structure Alloc where
  sid : Nat
  cat : VCat
  score : Option Rat
deriving DecidableEq, Repr

/-- The global `allocated_student` dict: student_id -> internship_id,
as an association list (new keys are prepended; the code only inserts
keys that are absent, so shadowing never occurs). -/
abbrev AMap := List (Nat × Nat)

/-- Per-internship entry of the `ranklists` dict consumed by
`multi_round_allotment`, together with that internship's allocation list.
The pool lists hold the not-yet-consumed suffixes (the pointers of the
code); the loop only ever reads `record['student_id']` from a pool entry,
so pools are embedded as student-id lists (scores reach the allocation
records through `score_lookup`, as in the code). -/
structure PosState where
  iid : Nat
  scPool : List Nat
  stPool : List Nat
  obcPool : List Nat
  urPool : List Nat
  ruralPool : List Nat
  capacity : Nat
  cap_sc : Nat
  cap_st : Nat
  cap_obc : Nat
  cap_ur : Nat
  cap_rural : Nat
  allocs : List Alloc
deriving DecidableEq, Repr

/-- `len([s for s in allocations[iid] if s['category'] == cat])`. -/
def catCount (cat : VCat) (allocs : List Alloc) : Nat :=
  (allocs.filter (fun a => a.cat = cat)).length

/-- Result of one category's `while` loop inside `multi_round_allotment`. -/
structure FillRes where
  pool : List Nat
  allocs : List Alloc
  amap : AMap
  newly : List (Nat × VCat)
deriving Repr

/-- One category's `while` loop of `multi_round_allotment` (the SC/ST/OBC/UR/
RURAL blocks are the same code up to the category tag): while the recomputed
category count is below the sub-quota, pop the next pool entry, skip it if the
student is already allocated anywhere, otherwise confirm it. -/
def fillCat (iid cap : Nat) (cat : VCat) (score : Nat → Option Rat) :
    List Nat → List Alloc → AMap → List (Nat × VCat) → FillRes
  | [], allocs, amap, newly => ⟨[], allocs, amap, newly⟩
  | cand :: rest, allocs, amap, newly =>
    if cap ≤ catCount cat allocs then ⟨cand :: rest, allocs, amap, newly⟩
    else if (amap.lookup cand).isSome then
      fillCat iid cap cat score rest allocs amap newly
    else
      fillCat iid cap cat score rest (allocs ++ [⟨cand, cat, score cand⟩])
        ((cand, iid) :: amap) (newly ++ [(cand, cat)])

/-- Result of processing one internship inside a round. -/
structure FPRes where
  ps : PosState
  amap : AMap
  newly : List (Nat × VCat)
deriving Repr

/-- The per-internship body of the round loop: the five category blocks run
in source order SC, ST, OBC, UR, RURAL, sharing the allocation list and the
global `allocated_student` map. -/
def fillPos (score : Nat → Nat → Option Rat) (ps : PosState) (amap : AMap) : FPRes :=
  let r1 := fillCat ps.iid ps.cap_sc VCat.SC (fun s => score s ps.iid) ps.scPool ps.allocs amap []
  let r2 := fillCat ps.iid ps.cap_st VCat.ST (fun s => score s ps.iid) ps.stPool r1.allocs r1.amap r1.newly
  let r3 := fillCat ps.iid ps.cap_obc VCat.OBC (fun s => score s ps.iid) ps.obcPool r2.allocs r2.amap r2.newly
  let r4 := fillCat ps.iid ps.cap_ur VCat.UR (fun s => score s ps.iid) ps.urPool r3.allocs r3.amap r3.newly
  let r5 := fillCat ps.iid ps.cap_rural VCat.RURAL (fun s => score s ps.iid) ps.ruralPool r4.allocs r4.amap r4.newly
  ⟨{ ps with scPool := r1.pool, stPool := r2.pool, obcPool := r3.pool,
             urPool := r4.pool, ruralPool := r5.pool, allocs := r5.allocs },
   r5.amap, r5.newly⟩

/-- Result of one full round over all internships: updated states, the grown
`allocated_student` map, and per-internship `round_allocated` entries
(with category tags, from which `round_cat_counts` is recovered). -/
structure RPRes where
  pss : List PosState
  amap : AMap
  per : List (Nat × List (Nat × VCat))
deriving Repr

/-- `for iid, info in ranklists.items()` for one round, in dict insertion
order. -/
def roundPass (score : Nat → Nat → Option Rat) :
    List PosState → AMap → RPRes
  | [], amap => ⟨[], amap, []⟩
  | ps :: rest, amap =>
    let r := fillPos score ps amap
    let rr := roundPass score rest r.amap
    ⟨r.ps :: rr.pss, rr.amap, (ps.iid, r.newly) :: rr.per⟩

/-- The per-internship slice of a round log (`internships_snapshot[iid]`). -/
structure PosLog where
  iid : Nat
  students : List Nat
  catCounts : List (VCat × Nat)
deriving DecidableEq, Repr

/-- One entry of `round_logs`. -/
structure RoundLog where
  round : Nat
  total : Nat
  internships : List PosLog
deriving DecidableEq, Repr

/-- Category order in which `round_cat_counts[iid]` acquires its keys. -/
def catOrder : List VCat := [VCat.SC, VCat.ST, VCat.OBC, VCat.UR, VCat.RURAL]

/-- Rebuild `internships_snapshot[iid]` from the round's allocation events.
`round_cat_counts[iid]` is a defaultdict whose keys appear in first-increment
order, which is the category processing order restricted to categories with
at least one allocation this round. -/
def mkPosLog (p : Nat × List (Nat × VCat)) : PosLog :=
  { iid := p.1,
    students := p.2.map (fun x => x.1),
    catCounts := catOrder.filterMap (fun c =>
      let n := (p.2.filter (fun x => x.2 = c)).length
      if n = 0 then none else some (c, n)) }

/-- Build one `round_logs` entry; `round_allocated` only holds internships
that received at least one student this round. -/
def mkRoundLog (ridx : Nat) (per : List (Nat × List (Nat × VCat))) : RoundLog :=
  { round := ridx,
    total := (per.map (fun p => p.2.length)).sum,
    internships := (per.filter (fun p => ¬ p.2 = [])).map mkPosLog }

/-- Result of the `while rounds < max_rounds` loop. -/
structure LoopRes where
  pss : List PosState
  amap : AMap
  logs : List RoundLog
deriving Repr

/-- The round loop of `multi_round_allotment`: run a pass, append its log,
stop when the pass allocated nobody or when the round budget is spent. -/
def roundsLoop (score : Nat → Nat → Option Rat) :
    Nat → Nat → List PosState → AMap → List RoundLog → LoopRes
  | 0, _, pss, amap, logs => ⟨pss, amap, logs⟩
  | fuel + 1, ridx, pss, amap, logs =>
    let r := roundPass score pss amap
    let total := (r.per.map (fun p => p.2.length)).sum
    let logs2 := logs ++ [mkRoundLog ridx r.per]
    if total = 0 then ⟨r.pss, r.amap, logs2⟩
    else roundsLoop score fuel (ridx + 1) r.pss r.amap logs2

/-- `all_students`: first-insertion-order enumeration of every student id
appearing in any pool of any internship, in the iteration order of the code. -/
def allStudentsOf (pss : List PosState) : List Nat :=
  (pss.foldl (fun acc ps =>
      acc ++ ps.scPool ++ ps.stPool ++ ps.obcPool ++ ps.urPool ++ ps.ruralPool) []).dedup

/-- The triple returned by `multi_round_allotment`. -/
structure MRResult where
  allocations : List (Nat × List Alloc)
  round_logs : List RoundLog
  unallocated : List Nat
deriving Repr

/-- `multi_round_allotment(ranklists, students_pref_map, final_scores_df,
max_rounds)` (src/allotment.py lines 41-200).  `students_pref_map` is unused
by the source body; `final_scores_df` enters only through `score_lookup`,
embedded as the `score` function.  The input states must carry empty
allocation lists (the code initialises `allocations[iid] = []`). -/
def multi_round_allotment (score : Nat → Nat → Option Rat)
    (ranklists : List PosState) (max_rounds : Nat) : MRResult :=
  let allS := allStudentsOf ranklists
  let r := roundsLoop score max_rounds 1 ranklists [] []
  { allocations := r.pss.map (fun ps => (ps.iid, ps.allocs)),
    round_logs := r.logs,
    unallocated := allS.filter (fun s => (r.amap.lookup s).isNone) }

/-! ## build_ranklists (src/ranklist_builder.py) -/

/-- One row of `pairs_df`: a scored student/internship pair carrying the
student attributes merged in by the pipeline. -/
structure Row where
  student_id : Nat
  internship_id : Nat
  final_score : Rat
  reservation : Res
  rural : Nat
  gender : String
deriving DecidableEq, Repr

/-- The structured dict produced by `make_struct` for one ranklist entry
(`internship_id` is dropped). -/
structure Entry where
  student_id : Nat
  final_score : Rat
  reservation : Res
  rural : Nat
  gender : String
deriving DecidableEq, Repr

/-- Drop the internship column, as `make_struct` does. -/
def toEntry (r : Row) : Entry :=
  ⟨r.student_id, r.final_score, r.reservation, r.rural, r.gender⟩

/-- Insert a row into a score-descending list, after every row of score
greater than or equal to its own (so that rows of equal score keep their
relative input order). -/
def insDesc (x : Row) : List Row → List Row
  | [] => [x]
  | y :: ys => if x.final_score ≤ y.final_score then y :: insDesc x ys else x :: y :: ys

/-- `sub.sort_values(by="final_score", ascending=False)`: a stable sort on
the score key alone — the source supplies no secondary key. -/
def sortScoreDesc (l : List Row) : List Row :=
  l.foldl (fun acc x => insDesc x acc) []

/-- The five pools of one internship's ranklist. -/
structure Pools where
  SC : List Entry
  ST : List Entry
  OBC : List Entry
  UR : List Entry
  RURAL : List Entry
deriving DecidableEq, Repr

/-- `build_ranklists(pairs_df, internships_df)` (src/ranklist_builder.py).
Only the `internship_id` column of `internships_df` is read, so the second
argument is the list of internship ids in row order.  Per internship: filter
its pairs, sort once by score descending, then slice the sorted list into
the category pools, the all-candidate UR pool and the rural pool. -/
def build_ranklists (pairs : List Row) (internship_ids : List Nat) :
    List (Nat × Pools) :=
  internship_ids.map (fun iid =>
    let sub := pairs.filter (fun r => r.internship_id = iid)
    let sorted := sortScoreDesc sub
    (iid,
      { SC := (sorted.filter (fun r => r.reservation = Res.SC)).map toEntry,
        ST := (sorted.filter (fun r => r.reservation = Res.ST)).map toEntry,
        OBC := (sorted.filter (fun r => r.reservation = Res.OBC)).map toEntry,
        UR := sorted.map toEntry,
        RURAL := (sorted.filter (fun r => r.rural = 1)).map toEntry }))

/-! ## optionC_allotment (src/optionC_allotment.py) -/

/-- One row of `internships_df` as read by `optionC_allotment`. -/
structure IRow where
  internship_id : Nat
  capacity : Nat
  cap_sc : Nat
  cap_st : Nat
  cap_obc : Nat
  cap_ur : Nat
  cap_rural : Nat
deriving DecidableEq, Repr

/-- One STEP-1 block: `for s in pool: if len(selected) < limit: selected.append(s)`.
Note the limits are cumulative across blocks in the source. -/
def fillUpTo (limit : Nat) (pool : List Entry) (selected : List Entry) : List Entry :=
  pool.foldl (fun sel s => if sel.length < limit then sel ++ [s] else sel) selected

/-- The `unique` dict pass: keyed on student_id, a later duplicate overwrites
the stored value but keeps the first occurrence's position, and
`list(unique.values())` returns first-occurrence order with last values. -/
def pyDedup (l : List Entry) : List Entry :=
  l.foldl (fun acc s =>
    if acc.any (fun t => t.student_id = s.student_id) then
      acc.map (fun t => if t.student_id = s.student_id then s else t)
    else acc ++ [s]) []

/-- Insert an entry into a score-ascending list after every entry of score
less than or equal to its own (stable, as Python's `sorted`). -/
def insAsc (x : Entry) : List Entry → List Entry
  | [] => [x]
  | y :: ys => if y.final_score ≤ x.final_score then y :: insAsc x ys else x :: y :: ys

/-- `sorted(non_rural, key=lambda x: x["final_score"])`. -/
def sortScoreAsc (l : List Entry) : List Entry :=
  l.foldl (fun acc x => insAsc x acc) []

/-- `sum(1 for x in selected if x["rural"] == 1)`. -/
def ruralCount (l : List Entry) : Nat :=
  (l.filter (fun x => x.rural = 1)).length

/-- STEP 2 of `optionC_allotment` plus the final clamp: when the rural count
falls short of the rural sub-quota, take up to the shortfall from the
not-yet-selected rural pool, drop that many lowest-scoring non-rural
selections, append the rural candidates while below capacity, and clamp. -/
def applyRural (cap cap_rural : Nat) (ruralPool : List Entry)
    (selected : List Entry) : List Entry :=
  let sel2 :=
    if ruralCount selected < cap_rural then
      let needed := cap_rural - ruralCount selected
      let avail := ruralPool.filter (fun x =>
        ¬ selected.any (fun y => y.student_id = x.student_id))
      let to_add := avail.take needed
      let non_rural := selected.filter (fun x => x.rural = 0)
      let to_remove := (sortScoreAsc non_rural).take needed
      let afterRemove := to_remove.foldl
        (fun sel r => sel.filter (fun x => ¬ x.student_id = r.student_id)) selected
      to_add.foldl (fun sel a => if sel.length < cap then sel ++ [a] else sel) afterRemove
    else selected
  sel2.take cap

/-- The whole per-internship body of `optionC_allotment`: the four vertical
blocks with cumulative limits, the duplicate removal, the safety clamp, and
the horizontal rural pass. -/
def optionC_select (row : IRow) (rl : Pools) : List Entry :=
  let s1 := fillUpTo row.cap_sc rl.SC []
  let s2 := fillUpTo (row.cap_sc + row.cap_st) rl.ST s1
  let s3 := fillUpTo (row.cap_sc + row.cap_st + row.cap_obc) rl.OBC s2
  let s4 := fillUpTo (row.cap_sc + row.cap_st + row.cap_obc + row.cap_ur) rl.UR s3
  let dd := (pyDedup s4).take row.capacity
  applyRural row.capacity row.cap_rural rl.RURAL dd

/-- One entry of the `round_logs` list written by `optionC_allotment`. -/
structure OCLog where
  internship_id : Nat
  capacity : Nat
  selected_count : Nat
  cap_sc : Nat
  cap_st : Nat
  cap_obc : Nat
  cap_ur : Nat
  cap_rural : Nat
  rural_selected : Nat
deriving DecidableEq, Repr

/-- Build the log entry for one internship. -/
def mkOCLog (row : IRow) (sel : List Entry) : OCLog :=
  { internship_id := row.internship_id,
    capacity := row.capacity,
    selected_count := sel.length,
    cap_sc := row.cap_sc,
    cap_st := row.cap_st,
    cap_obc := row.cap_obc,
    cap_ur := row.cap_ur,
    cap_rural := row.cap_rural,
    rural_selected := ruralCount sel }

/-- The `for _, row in internships_df.iterrows()` loop of `optionC_allotment`.
`ranklists[iid]` on a missing key raises `KeyError`, embedded as
`Except.error`; the exception propagates, so nothing is returned or written. -/
def optionC_go (ranklists : List (Nat × Pools)) :
    List IRow → List (Nat × List Entry) → List OCLog →
    Except String (List (Nat × List Entry) × List OCLog)
  | [], acc, logs => Except.ok (acc, logs)
  | row :: rest, acc, logs =>
    match ranklists.lookup row.internship_id with
    | none => Except.error "KeyError"
    | some rl =>
      let sel := optionC_select row rl
      optionC_go ranklists rest (acc ++ [(row.internship_id, sel)])
        (logs ++ [mkOCLog row sel])

/-- `optionC_allotment(ranklists, internships_df, out_json_dir)`
(src/optionC_allotment.py).  The function returns `final_alloc` and writes
`round_logs` to JSON; both observable outputs are returned here.  File
placement is outside the model. -/
def optionC_allotment (ranklists : List (Nat × Pools)) (internships : List IRow) :
    Except String (List (Nat × List Entry) × List OCLog) :=
  optionC_go ranklists internships [] []

/-! ## Quota derivation (data_generator.py, generate_internships lines 48-54) -/

/-- The integer sub-quota split for one internship. -/
structure CapSplit where
  cap_sc : Nat
  cap_st : Nat
  cap_obc : Nat
  cap_ur : Int
  cap_rural : Nat
deriving DecidableEq, Repr

/-- The reservation-split portion of `generate_internships`
(src/.../data_generator.py lines 48-54): the generator draws
`cap = random.randint(5, 20)` and then computes the split below.
`cap_ur` is Python int subtraction, so it is embedded as `Int`. -/
def generate_internship_caps (cap : Nat) : CapSplit :=
  { cap_sc := max 1 (cap / 10),
    cap_st := max 1 (cap / 20),
    cap_obc := max 1 (cap / 6),
    cap_ur := (cap : Int) - ((max 1 (cap / 10) : Nat) + (max 1 (cap / 20) : Nat) + (max 1 (cap / 6) : Nat)),
    cap_rural := max 1 (cap / 5) }

/-! ## Invariant infrastructure for multi_round_allotment -/

/-- Student ids of an allocation list. -/
def sids (allocs : List Alloc) : List Nat := allocs.map (fun a => a.sid)

/-- Student ids confirmed anywhere, per position, concatenated. -/
def flatSids : List PosState → List Nat
  | [] => []
  | ps :: rest => sids ps.allocs ++ flatSids rest

/-- All five per-category confirmed counts of a position are within its
sub-quotas. -/
def Bounded (ps : PosState) : Prop :=
  catCount VCat.SC ps.allocs ≤ ps.cap_sc ∧ catCount VCat.ST ps.allocs ≤ ps.cap_st
    ∧ catCount VCat.OBC ps.allocs ≤ ps.cap_obc ∧ catCount VCat.UR ps.allocs ≤ ps.cap_ur
    ∧ catCount VCat.RURAL ps.allocs ≤ ps.cap_rural

/-- Every category loop of a position has terminated for good: its
sub-quota is met or its pool cursor is exhausted. -/
def PSDone (ps : PosState) : Prop :=
  (ps.scPool = [] ∨ ps.cap_sc ≤ catCount VCat.SC ps.allocs)
    ∧ (ps.stPool = [] ∨ ps.cap_st ≤ catCount VCat.ST ps.allocs)
    ∧ (ps.obcPool = [] ∨ ps.cap_obc ≤ catCount VCat.OBC ps.allocs)
    ∧ (ps.urPool = [] ∨ ps.cap_ur ≤ catCount VCat.UR ps.allocs)
    ∧ (ps.ruralPool = [] ∨ ps.cap_rural ≤ catCount VCat.RURAL ps.allocs)

theorem catCount_append (c : VCat) (l : List Alloc) (a : Alloc) :
    catCount c (l ++ [a]) = catCount c l + (if a.cat = c then 1 else 0) := by
  by_cases h : a.cat = c <;> simp [catCount, List.filter_append, h]

theorem fillCat_nil (iid cap : Nat) (cat : VCat) (score : Nat → Option Rat)
    (allocs : List Alloc) (amap : AMap) (newly : List (Nat × VCat)) :
    fillCat iid cap cat score [] allocs amap newly = ⟨[], allocs, amap, newly⟩ := rfl

theorem fillCat_cons_stop (iid cap : Nat) (cat : VCat) (score : Nat → Option Rat)
    (cand : Nat) (rest : List Nat) (allocs : List Alloc) (amap : AMap)
    (newly : List (Nat × VCat)) (h1 : cap ≤ catCount cat allocs) :
    fillCat iid cap cat score (cand :: rest) allocs amap newly
      = ⟨cand :: rest, allocs, amap, newly⟩ := by
  simp [fillCat, h1]

theorem fillCat_cons_skip (iid cap : Nat) (cat : VCat) (score : Nat → Option Rat)
    (cand : Nat) (rest : List Nat) (allocs : List Alloc) (amap : AMap)
    (newly : List (Nat × VCat)) (h1 : ¬ cap ≤ catCount cat allocs)
    (h2 : (List.lookup cand amap).isSome) :
    fillCat iid cap cat score (cand :: rest) allocs amap newly
      = fillCat iid cap cat score rest allocs amap newly := by
  simp [fillCat, h1, h2]

theorem fillCat_cons_add (iid cap : Nat) (cat : VCat) (score : Nat → Option Rat)
    (cand : Nat) (rest : List Nat) (allocs : List Alloc) (amap : AMap)
    (newly : List (Nat × VCat)) (h1 : ¬ cap ≤ catCount cat allocs)
    (h2 : ¬ (List.lookup cand amap).isSome) :
    fillCat iid cap cat score (cand :: rest) allocs amap newly
      = fillCat iid cap cat score rest (allocs ++ [⟨cand, cat, score cand⟩])
          ((cand, iid) :: amap) (newly ++ [(cand, cat)]) := by
  simp [fillCat, h1, h2]

theorem fillCat_count_le (iid cap : Nat) (cat : VCat) (score : Nat → Option Rat) :
    ∀ (pool : List Nat) (allocs : List Alloc) (amap : AMap) (newly : List (Nat × VCat)),
      catCount cat allocs ≤ cap →
      catCount cat (fillCat iid cap cat score pool allocs amap newly).allocs ≤ cap := by
  intro pool
  induction pool with
  | nil => intro allocs amap newly h; simpa [fillCat] using h
  | cons cand rest ih =>
    intro allocs amap newly h
    by_cases h1 : cap ≤ catCount cat allocs
    · simpa [fillCat, h1] using h
    · by_cases h2 : (List.lookup cand amap).isSome
      · simpa [fillCat, h1, h2] using ih allocs amap newly h
      · have hnew : catCount cat (allocs ++ [⟨cand, cat, score cand⟩]) ≤ cap := by
          rw [catCount_append]; simp; omega
        simpa [fillCat, h1, h2] using ih _ _ _ hnew

theorem fillCat_count_other (iid cap : Nat) (cat : VCat) (score : Nat → Option Rat)
    (c : VCat) (hc : c ≠ cat) :
    ∀ (pool : List Nat) (allocs : List Alloc) (amap : AMap) (newly : List (Nat × VCat)),
      catCount c (fillCat iid cap cat score pool allocs amap newly).allocs
        = catCount c allocs := by
  intro pool
  induction pool with
  | nil => intro allocs amap newly; simp [fillCat]
  | cons cand rest ih =>
    intro allocs amap newly
    by_cases h1 : cap ≤ catCount cat allocs
    · simp [fillCat, h1]
    · by_cases h2 : (List.lookup cand amap).isSome
      · simp only [fillCat, if_neg h1, if_pos h2]; exact ih allocs amap newly
      · simp only [fillCat, if_neg h1, if_neg h2]
        rw [ih]
        rw [catCount_append]
        simp [Ne.symm hc]

theorem fillCat_done (iid cap : Nat) (cat : VCat) (score : Nat → Option Rat) :
    ∀ (pool : List Nat) (allocs : List Alloc) (amap : AMap) (newly : List (Nat × VCat)),
      (fillCat iid cap cat score pool allocs amap newly).pool = []
        ∨ cap ≤ catCount cat (fillCat iid cap cat score pool allocs amap newly).allocs := by
  intro pool
  induction pool with
  | nil => intro allocs amap newly; left; simp [fillCat]
  | cons cand rest ih =>
    intro allocs amap newly
    by_cases h1 : cap ≤ catCount cat allocs
    · right
      rw [fillCat_cons_stop _ _ _ _ _ _ _ _ _ h1]
      exact h1
    · by_cases h2 : (List.lookup cand amap).isSome
      · simpa [fillCat, h1, h2] using ih allocs amap newly
      · simpa [fillCat, h1, h2] using ih _ _ _

theorem fillCat_noop (iid cap : Nat) (cat : VCat) (score : Nat → Option Rat)
    (pool : List Nat) (allocs : List Alloc) (amap : AMap) (newly : List (Nat × VCat))
    (h : pool = [] ∨ cap ≤ catCount cat allocs) :
    fillCat iid cap cat score pool allocs amap newly = ⟨pool, allocs, amap, newly⟩ := by
  rcases h with rfl | h
  · simp [fillCat]
  · cases pool with
    | nil => simp [fillCat]
    | cons cand rest => simp [fillCat, h]

theorem fillCat_amap_mono (iid cap : Nat) (cat : VCat) (score : Nat → Option Rat) (s : Nat) :
    ∀ (pool : List Nat) (allocs : List Alloc) (amap : AMap) (newly : List (Nat × VCat)),
      (List.lookup s amap).isSome →
      (List.lookup s (fillCat iid cap cat score pool allocs amap newly).amap).isSome := by
  intro pool
  induction pool with
  | nil => intro allocs amap newly h; simpa [fillCat] using h
  | cons cand rest ih =>
    intro allocs amap newly h
    by_cases h1 : cap ≤ catCount cat allocs
    · simpa [fillCat, h1] using h
    · by_cases h2 : (List.lookup cand amap).isSome
      · simpa [fillCat, h1, h2] using ih allocs amap newly h
      · have hnew : (List.lookup s ((cand, iid) :: amap)).isSome := by
          rw [List.lookup_cons]
          by_cases hs : s = cand
          · subst hs; simp
          · simpa [beq_false_of_ne hs] using h
        simpa [fillCat, h1, h2] using ih _ _ _ hnew

theorem nodup_append_singleton {l : List Nat} {c : Nat} (h : l.Nodup) (hc : c ∉ l) :
    (l ++ [c]).Nodup := by
  simp [List.nodup_append, h, hc]

theorem fillCat_nodup_inv (iid cap : Nat) (cat : VCat) (score : Nat → Option Rat)
    (others : List Nat) :
    ∀ (pool : List Nat) (allocs : List Alloc) (amap : AMap) (newly : List (Nat × VCat)),
      (others ++ sids allocs).Nodup →
      (∀ s ∈ others ++ sids allocs, (List.lookup s amap).isSome) →
      ((others ++ sids (fillCat iid cap cat score pool allocs amap newly).allocs).Nodup
        ∧ ∀ s ∈ others ++ sids (fillCat iid cap cat score pool allocs amap newly).allocs,
            (List.lookup s (fillCat iid cap cat score pool allocs amap newly).amap).isSome) := by
  intro pool
  induction pool with
  | nil => intro allocs amap newly hnd hmem; rw [fillCat_nil]; exact ⟨hnd, hmem⟩
  | cons cand rest ih =>
    intro allocs amap newly hnd hmem
    by_cases h1 : cap ≤ catCount cat allocs
    · rw [fillCat_cons_stop _ _ _ _ _ _ _ _ _ h1]; exact ⟨hnd, hmem⟩
    · by_cases h2 : (List.lookup cand amap).isSome
      · rw [fillCat_cons_skip _ _ _ _ _ _ _ _ _ h1 h2]
        exact ih allocs amap newly hnd hmem
      · have hcand : cand ∉ others ++ sids allocs := by
          intro hmemc
          exact h2 (hmem cand hmemc)
        have hsids : sids (allocs ++ [⟨cand, cat, score cand⟩]) = sids allocs ++ [cand] := by
          simp [sids]
        have hnd2 : (others ++ sids (allocs ++ [⟨cand, cat, score cand⟩])).Nodup := by
          rw [hsids, ← List.append_assoc]
          exact nodup_append_singleton hnd hcand
        have hmem2 : ∀ s ∈ others ++ sids (allocs ++ [⟨cand, cat, score cand⟩]),
            (List.lookup s ((cand, iid) :: amap)).isSome := by
          intro s hs
          rw [List.lookup_cons]
          by_cases hseq : s = cand
          · subst hseq; simp
          · rw [hsids, ← List.append_assoc] at hs
            rcases List.mem_append.mp hs with hs | hs
            · simpa [beq_false_of_ne hseq] using hmem s hs
            · exact absurd (List.mem_singleton.mp hs) hseq
        rw [fillCat_cons_add _ _ _ _ _ _ _ _ _ h1 h2]
        exact ih _ _ _ hnd2 hmem2

/-- Joint invariant: the ids confirmed in `allocs`, together with the ids
`others` confirmed elsewhere, are pairwise distinct and all registered in
the `allocated_student` map. -/
def GoodState (others : List Nat) (allocs : List Alloc) (amap : AMap) : Prop :=
  (others ++ sids allocs).Nodup
    ∧ ∀ s ∈ others ++ sids allocs, (List.lookup s amap).isSome

theorem fillCat_good (iid cap : Nat) (cat : VCat) (score : Nat → Option Rat)
    (others : List Nat) (pool : List Nat) (r : FillRes)
    (h : GoodState others r.allocs r.amap) :
    GoodState others (fillCat iid cap cat score pool r.allocs r.amap r.newly).allocs
      (fillCat iid cap cat score pool r.allocs r.amap r.newly).amap :=
  fillCat_nodup_inv iid cap cat score others pool r.allocs r.amap r.newly h.1 h.2

theorem fillCat_count_other_res (iid cap : Nat) (cat : VCat) (score : Nat → Option Rat)
    (c : VCat) (hc : c ≠ cat) (pool : List Nat) (r : FillRes) :
    catCount c (fillCat iid cap cat score pool r.allocs r.amap r.newly).allocs
      = catCount c r.allocs :=
  fillCat_count_other iid cap cat score c hc pool r.allocs r.amap r.newly

theorem fillPos_bounded (score : Nat → Nat → Option Rat) (ps : PosState) (amap : AMap)
    (h : Bounded ps) : Bounded (fillPos score ps amap).ps := by
  obtain ⟨h1, h2, h3, h4, h5⟩ := h
  dsimp only [fillPos, Bounded]
  refine ⟨?_, ?_, ?_, ?_, ?_⟩
  · rw [fillCat_count_other_res _ _ _ _ _ (by decide : VCat.SC ≠ VCat.RURAL),
      fillCat_count_other_res _ _ _ _ _ (by decide : VCat.SC ≠ VCat.UR),
      fillCat_count_other_res _ _ _ _ _ (by decide : VCat.SC ≠ VCat.OBC),
      fillCat_count_other_res _ _ _ _ _ (by decide : VCat.SC ≠ VCat.ST)]
    exact fillCat_count_le _ _ _ _ _ _ _ _ h1
  · rw [fillCat_count_other_res _ _ _ _ _ (by decide : VCat.ST ≠ VCat.RURAL),
      fillCat_count_other_res _ _ _ _ _ (by decide : VCat.ST ≠ VCat.UR),
      fillCat_count_other_res _ _ _ _ _ (by decide : VCat.ST ≠ VCat.OBC)]
    refine fillCat_count_le _ _ _ _ _ _ _ _ ?_
    rw [fillCat_count_other _ _ _ _ _ (by decide : VCat.ST ≠ VCat.SC)]
    exact h2
  · rw [fillCat_count_other_res _ _ _ _ _ (by decide : VCat.OBC ≠ VCat.RURAL),
      fillCat_count_other_res _ _ _ _ _ (by decide : VCat.OBC ≠ VCat.UR)]
    refine fillCat_count_le _ _ _ _ _ _ _ _ ?_
    rw [fillCat_count_other _ _ _ _ _ (by decide : VCat.OBC ≠ VCat.ST),
      fillCat_count_other _ _ _ _ _ (by decide : VCat.OBC ≠ VCat.SC)]
    exact h3
  · rw [fillCat_count_other_res _ _ _ _ _ (by decide : VCat.UR ≠ VCat.RURAL)]
    refine fillCat_count_le _ _ _ _ _ _ _ _ ?_
    rw [fillCat_count_other _ _ _ _ _ (by decide : VCat.UR ≠ VCat.OBC),
      fillCat_count_other _ _ _ _ _ (by decide : VCat.UR ≠ VCat.ST),
      fillCat_count_other _ _ _ _ _ (by decide : VCat.UR ≠ VCat.SC)]
    exact h4
  · refine fillCat_count_le _ _ _ _ _ _ _ _ ?_
    rw [fillCat_count_other _ _ _ _ _ (by decide : VCat.RURAL ≠ VCat.UR),
      fillCat_count_other _ _ _ _ _ (by decide : VCat.RURAL ≠ VCat.OBC),
      fillCat_count_other _ _ _ _ _ (by decide : VCat.RURAL ≠ VCat.ST),
      fillCat_count_other _ _ _ _ _ (by decide : VCat.RURAL ≠ VCat.SC)]
    exact h5

theorem fillPos_done (score : Nat → Nat → Option Rat) (ps : PosState) (amap : AMap) :
    PSDone (fillPos score ps amap).ps := by
  dsimp only [fillPos, PSDone]
  refine ⟨?_, ?_, ?_, ?_, ?_⟩
  · rw [fillCat_count_other_res _ _ _ _ _ (by decide : VCat.SC ≠ VCat.RURAL),
      fillCat_count_other_res _ _ _ _ _ (by decide : VCat.SC ≠ VCat.UR),
      fillCat_count_other_res _ _ _ _ _ (by decide : VCat.SC ≠ VCat.OBC),
      fillCat_count_other_res _ _ _ _ _ (by decide : VCat.SC ≠ VCat.ST)]
    exact fillCat_done _ _ _ _ _ _ _ _
  · rw [fillCat_count_other_res _ _ _ _ _ (by decide : VCat.ST ≠ VCat.RURAL),
      fillCat_count_other_res _ _ _ _ _ (by decide : VCat.ST ≠ VCat.UR),
      fillCat_count_other_res _ _ _ _ _ (by decide : VCat.ST ≠ VCat.OBC)]
    exact fillCat_done _ _ _ _ _ _ _ _
  · rw [fillCat_count_other_res _ _ _ _ _ (by decide : VCat.OBC ≠ VCat.RURAL),
      fillCat_count_other_res _ _ _ _ _ (by decide : VCat.OBC ≠ VCat.UR)]
    exact fillCat_done _ _ _ _ _ _ _ _
  · rw [fillCat_count_other_res _ _ _ _ _ (by decide : VCat.UR ≠ VCat.RURAL)]
    exact fillCat_done _ _ _ _ _ _ _ _
  · exact fillCat_done _ _ _ _ _ _ _ _

theorem fillPos_noop (score : Nat → Nat → Option Rat) (ps : PosState) (amap : AMap)
    (h : PSDone ps) : fillPos score ps amap = ⟨ps, amap, []⟩ := by
  obtain ⟨d1, d2, d3, d4, d5⟩ := h
  dsimp only [fillPos]
  rw [fillCat_noop _ _ _ _ _ _ _ _ d1]
  dsimp only
  rw [fillCat_noop _ _ _ _ _ _ _ _ d2]
  dsimp only
  rw [fillCat_noop _ _ _ _ _ _ _ _ d3]
  dsimp only
  rw [fillCat_noop _ _ _ _ _ _ _ _ d4]
  dsimp only
  rw [fillCat_noop _ _ _ _ _ _ _ _ d5]

theorem fillPos_good (score : Nat → Nat → Option Rat) (others : List Nat)
    (ps : PosState) (amap : AMap) (h : GoodState others ps.allocs amap) :
    GoodState others (fillPos score ps amap).ps.allocs (fillPos score ps amap).amap := by
  dsimp only [fillPos]
  have g1 : GoodState others
      (fillCat ps.iid ps.cap_sc VCat.SC (fun s => score s ps.iid) ps.scPool ps.allocs amap []).allocs
      (fillCat ps.iid ps.cap_sc VCat.SC (fun s => score s ps.iid) ps.scPool ps.allocs amap []).amap :=
    fillCat_nodup_inv _ _ _ _ others _ _ _ _ h.1 h.2
  have g2 := fillCat_good ps.iid ps.cap_st VCat.ST (fun s => score s ps.iid) others ps.stPool _ g1
  have g3 := fillCat_good ps.iid ps.cap_obc VCat.OBC (fun s => score s ps.iid) others ps.obcPool _ g2
  have g4 := fillCat_good ps.iid ps.cap_ur VCat.UR (fun s => score s ps.iid) others ps.urPool _ g3
  have g5 := fillCat_good ps.iid ps.cap_rural VCat.RURAL (fun s => score s ps.iid) others ps.ruralPool _ g4
  exact g5

/-! ## Round-level invariants -/

/-- `GoodState` lifted over the whole position list. -/
def GoodFlat (done : List Nat) (pss : List PosState) (amap : AMap) : Prop :=
  (done ++ flatSids pss).Nodup
    ∧ ∀ s ∈ done ++ flatSids pss, (List.lookup s amap).isSome

theorem nodup_assoc_swap (a b c : List Nat) :
    (a ++ (b ++ c)).Nodup ↔ ((a ++ c) ++ b).Nodup := by
  rw [List.append_assoc]
  exact ((@List.perm_append_comm Nat b c).append_left a).nodup_iff

theorem roundPass_good (score : Nat → Nat → Option Rat) :
    ∀ (pss : List PosState) (amap : AMap) (done : List Nat),
      GoodFlat done pss amap →
      GoodFlat done (roundPass score pss amap).pss (roundPass score pss amap).amap := by
  intro pss
  induction pss with
  | nil => intro amap done h; exact h
  | cons ps rest ih =>
    intro amap done h
    obtain ⟨hnd, hmem⟩ := h
    have hg : GoodState (done ++ flatSids rest) ps.allocs amap := by
      constructor
      · exact (nodup_assoc_swap done (sids ps.allocs) (flatSids rest)).mp
          (by simpa [flatSids] using hnd)
      · intro s hs
        apply hmem
        simp only [flatSids, List.mem_append] at hs ⊢
        tauto
    have hps := fillPos_good score (done ++ flatSids rest) ps amap hg
    have hrec : GoodFlat (done ++ sids (fillPos score ps amap).ps.allocs) rest
        (fillPos score ps amap).amap := by
      constructor
      · have h1 := hps.1
        rw [List.append_assoc] at h1
        exact (nodup_assoc_swap done (flatSids rest)
          (sids (fillPos score ps amap).ps.allocs)).mp h1
      · intro s hs
        apply hps.2
        simp only [List.mem_append] at hs ⊢
        tauto
    have hr := ih (fillPos score ps amap).amap _ hrec
    dsimp only [roundPass]
    constructor
    · have h1 := hr.1
      rw [List.append_assoc] at h1
      simpa [flatSids] using h1
    · intro s hs
      apply hr.2
      simp only [flatSids, List.mem_append] at hs ⊢
      tauto

theorem roundPass_bounded (score : Nat → Nat → Option Rat) :
    ∀ (pss : List PosState) (amap : AMap), (∀ ps ∈ pss, Bounded ps) →
      ∀ ps2 ∈ (roundPass score pss amap).pss, Bounded ps2 := by
  intro pss
  induction pss with
  | nil =>
    intro amap _ ps2 h2
    exact absurd h2 (List.not_mem_nil _)
  | cons ps rest ih =>
    intro amap h ps2 h2
    dsimp only [roundPass] at h2
    rcases List.mem_cons.mp h2 with rfl | h2
    · exact fillPos_bounded _ _ _ (h ps (List.mem_cons_self _ _))
    · exact ih _ (fun q hq => h q (List.mem_cons_of_mem _ hq)) _ h2

theorem roundPass_done (score : Nat → Nat → Option Rat) :
    ∀ (pss : List PosState) (amap : AMap),
      ∀ ps2 ∈ (roundPass score pss amap).pss, PSDone ps2 := by
  intro pss
  induction pss with
  | nil =>
    intro amap ps2 h2
    exact absurd h2 (List.not_mem_nil _)
  | cons ps rest ih =>
    intro amap ps2 h2
    dsimp only [roundPass] at h2
    rcases List.mem_cons.mp h2 with rfl | h2
    · exact fillPos_done _ _ _
    · exact ih _ _ h2

theorem roundPass_noop (score : Nat → Nat → Option Rat) :
    ∀ (pss : List PosState) (amap : AMap), (∀ ps ∈ pss, PSDone ps) →
      roundPass score pss amap = ⟨pss, amap, pss.map (fun ps => (ps.iid, []))⟩ := by
  intro pss
  induction pss with
  | nil => intro amap _; rfl
  | cons ps rest ih =>
    intro amap h
    dsimp only [roundPass]
    rw [fillPos_noop score ps amap (h ps (List.mem_cons_self _ _))]
    dsimp only
    rw [ih amap (fun q hq => h q (List.mem_cons_of_mem _ hq))]
    dsimp only
    rfl

/-! ## Loop-level invariants -/

theorem roundsLoop_bounded (score : Nat → Nat → Option Rat) :
    ∀ (fuel ridx : Nat) (pss : List PosState) (amap : AMap) (logs : List RoundLog),
      (∀ ps ∈ pss, Bounded ps) →
      ∀ ps2 ∈ (roundsLoop score fuel ridx pss amap logs).pss, Bounded ps2 := by
  intro fuel
  induction fuel with
  | zero => intro ridx pss amap logs h ps2 h2; exact h ps2 h2
  | succ f ih =>
    intro ridx pss amap logs h ps2 h2
    dsimp only [roundsLoop] at h2
    split at h2
    · exact roundPass_bounded score pss amap h ps2 h2
    · exact ih _ _ _ _ (roundPass_bounded score pss amap h) ps2 h2

theorem roundsLoop_good (score : Nat → Nat → Option Rat) :
    ∀ (fuel ridx : Nat) (pss : List PosState) (amap : AMap) (logs : List RoundLog)
      (done : List Nat),
      GoodFlat done pss amap →
      GoodFlat done (roundsLoop score fuel ridx pss amap logs).pss
        (roundsLoop score fuel ridx pss amap logs).amap := by
  intro fuel
  induction fuel with
  | zero => intro ridx pss amap logs done h; exact h
  | succ f ih =>
    intro ridx pss amap logs done h
    dsimp only [roundsLoop]
    split
    · exact roundPass_good score pss amap done h
    · exact ih _ _ _ _ _ (roundPass_good score pss amap done h)

/-! ## Concrete instances used by the claims -/

/-- Candidate s1 of the spec scenario: SC, score .9, not rural. -/
def e1 : Entry := ⟨1, mkRat 9 10, Res.SC, 0, "M"⟩

/-- Candidate s2 of the spec scenario: OBC, score .8, not rural. -/
def e2 : Entry := ⟨2, mkRat 8 10, Res.OBC, 0, "M"⟩

/-- Candidate s3 of the spec scenario: OBC, score .5, not rural. -/
def e3 : Entry := ⟨3, mkRat 1 2, Res.OBC, 0, "M"⟩

/-- Candidate s4 of the spec scenario: general, score .95, not rural. -/
def e4 : Entry := ⟨4, mkRat 19 20, Res.GEN, 0, "M"⟩

/-- Candidate s5 of the spec scenario: general, score .90, not rural. -/
def e5 : Entry := ⟨5, mkRat 9 10, Res.GEN, 0, "M"⟩

/-- Candidate s6 of the spec scenario: general, score .85, rural. -/
def e6 : Entry := ⟨6, mkRat 17 20, Res.GEN, 1, "M"⟩

/-- The spec scenario's pools: SC=[s1], ST=[], OBC=[s2,s3], UR=[s4,s5,s6],
RURAL=[s6]. -/
def c4pools : Pools := ⟨[e1], [], [e2, e3], [e4, e5, e6], [e6]⟩

/-- The spec scenario's position: capacity 5, sub-quotas sc=1, st=1, obc=1,
ur=2, rural sub-quota 2. -/
def c4row : IRow := ⟨1, 5, 1, 1, 1, 2, 2⟩

/-- A non-rural entry with score .5. -/
def ca : Entry := ⟨1, mkRat 1 2, Res.GEN, 0, "M"⟩

/-- A non-rural entry with score .9. -/
def cb : Entry := ⟨2, mkRat 9 10, Res.GEN, 0, "M"⟩

/-- A scored pair row: student 2, internship 7, score .5. -/
def rowS2 : Row := ⟨2, 7, mkRat 1 2, Res.GEN, 0, "F"⟩

/-- A scored pair row: student 1, internship 7, score .5 (same score as
`rowS2`, smaller student id, appearing later in the input). -/
def rowS1 : Row := ⟨1, 7, mkRat 1 2, Res.GEN, 0, "M"⟩

/-- A one-position `multi_round_allotment` input whose vertical sub-quotas
sum exactly to the capacity 1 and whose rural sub-quota is 1 ≤ capacity:
UR pool holds student 10, RURAL pool holds student 20. -/
def mrPos : PosState :=
  { iid := 1, scPool := [], stPool := [], obcPool := [], urPool := [10],
    ruralPool := [20], capacity := 1, cap_sc := 0, cap_st := 0, cap_obc := 0,
    cap_ur := 1, cap_rural := 1, allocs := [] }

/-- A general-category, non-rural candidate appearing in two internships'
UR pools. -/
def sharedE : Entry := ⟨1, mkRat 9 10, Res.GEN, 0, "M"⟩

/-- Pools holding only `sharedE` in the UR pool. -/
def sharedPools : Pools := ⟨[], [], [], [sharedE], []⟩

/-- Internship 1, capacity 1, only a UR seat. -/
def rowA : IRow := ⟨1, 1, 0, 0, 0, 1, 0⟩

/-- Internship 2, capacity 1, only a UR seat. -/
def rowB : IRow := ⟨2, 1, 0, 0, 0, 1, 0⟩

/-! ## Sortedness of the built ranklists (claim C5) -/

/-- Score-descending order on rows. -/
def RowGE (a b : Row) : Prop := b.final_score ≤ a.final_score

/-- Score-descending order on ranklist entries. -/
def EntryGE (a b : Entry) : Prop := b.final_score ≤ a.final_score

theorem mem_insDesc {z x : Row} : ∀ {l : List Row}, z ∈ insDesc x l → z = x ∨ z ∈ l := by
  intro l
  induction l with
  | nil => intro h; simpa [insDesc] using h
  | cons y ys ih =>
    intro h
    by_cases hc : x.final_score ≤ y.final_score
    · simp only [insDesc, if_pos hc, List.mem_cons] at h
      rcases h with h | h
      · exact Or.inr (by simp [h])
      · rcases ih h with h | h
        · exact Or.inl h
        · exact Or.inr (List.mem_cons_of_mem _ h)
    · simp only [insDesc, if_neg hc, List.mem_cons] at h
      rcases h with h | h
      · exact Or.inl h
      · exact Or.inr (by simpa using h)

theorem pairwise_insDesc {x : Row} : ∀ {l : List Row},
    l.Pairwise RowGE → (insDesc x l).Pairwise RowGE := by
  intro l
  induction l with
  | nil => intro _; simp [insDesc, List.pairwise_singleton]
  | cons y ys ih =>
    intro h
    rcases List.pairwise_cons.mp h with ⟨hy, hys⟩
    by_cases hc : x.final_score ≤ y.final_score
    · simp only [insDesc, if_pos hc]
      refine List.pairwise_cons.mpr ⟨?_, ih hys⟩
      intro z hz
      rcases mem_insDesc hz with rfl | hz
      · exact hc
      · exact hy z hz
    · simp only [insDesc, if_neg hc]
      refine List.pairwise_cons.mpr ⟨?_, h⟩
      intro z hz
      rcases List.mem_cons.mp hz with rfl | hz
      · exact le_of_lt (lt_of_not_le hc)
      · exact le_trans (hy z hz) (le_of_lt (lt_of_not_le hc))

theorem sorted_foldl_insDesc : ∀ (l acc : List Row),
    acc.Pairwise RowGE → (l.foldl (fun acc x => insDesc x acc) acc).Pairwise RowGE := by
  intro l
  induction l with
  | nil => intro acc h; simpa using h
  | cons x xs ih => intro acc h; exact ih _ (pairwise_insDesc h)

theorem sorted_sortScoreDesc (l : List Row) : (sortScoreDesc l).Pairwise RowGE :=
  sorted_foldl_insDesc l [] (List.Pairwise.nil)

theorem rowGE_entryGE {a b : Row} (h : RowGE a b) : EntryGE (toEntry a) (toEntry b) := h

/-- C5, amended part: every pool of every position built by
`build_ranklists` is sorted by score descending. -/
theorem ranklists_sorted_desc (pairs : List Row) (iids : List Nat) :
    ∀ p ∈ build_ranklists pairs iids,
      p.2.SC.Pairwise EntryGE ∧ p.2.ST.Pairwise EntryGE ∧ p.2.OBC.Pairwise EntryGE
        ∧ p.2.UR.Pairwise EntryGE ∧ p.2.RURAL.Pairwise EntryGE := by
  intro p hp
  rcases List.mem_map.mp hp with ⟨iid, _, rfl⟩
  have hs : (sortScoreDesc (pairs.filter (fun r => r.internship_id = iid))).Pairwise RowGE :=
    sorted_sortScoreDesc _
  exact ⟨(hs.sublist (List.filter_sublist _)).map toEntry (fun _ _ h => rowGE_entryGE h),
    (hs.sublist (List.filter_sublist _)).map toEntry (fun _ _ h => rowGE_entryGE h),
    (hs.sublist (List.filter_sublist _)).map toEntry (fun _ _ h => rowGE_entryGE h),
    hs.map toEntry (fun _ _ h => rowGE_entryGE h),
    (hs.sublist (List.filter_sublist _)).map toEntry (fun _ _ h => rowGE_entryGE h)⟩

/-! ## Claim C5 -/

/-- C5 counterexample: on the input rows `rowS2` then `rowS1` (same score
1/2, student ids 2 and 1), `build_ranklists` emits the UR pool in input
order [2, 1], so it is false that whenever two candidates in a pool have
equal scores the one with the smaller identity appears first: the source
sorts on the score key only, with no identity tie-break. -/
theorem ranklist_tie_order_counterexample :
    ¬ ∀ p ∈ build_ranklists [rowS2, rowS1] [7],
        p.2.UR.Pairwise (fun a b =>
          a.final_score = b.final_score → a.student_id < b.student_id) := by
  decide

/-- The pools `build_ranklists [rowS2, rowS1] [7]` produces for internship 7. -/
def c5pools : Pools := ⟨[], [], [], [toEntry rowS2, toEntry rowS1], []⟩

/-- Witness for `ranklists_sorted_desc` at the concrete two-row input. -/
theorem ranklists_sorted_desc_witness :
    (7, c5pools) ∈ build_ranklists [rowS2, rowS1] [7]
      ∧ c5pools.SC.Pairwise EntryGE ∧ c5pools.ST.Pairwise EntryGE
      ∧ c5pools.OBC.Pairwise EntryGE ∧ c5pools.UR.Pairwise EntryGE
      ∧ c5pools.RURAL.Pairwise EntryGE :=
  ⟨by decide, ranklists_sorted_desc [rowS2, rowS1] [7] (7, c5pools) (by decide)⟩

/-! ## Claim C6 -/

/-- C6: for every capacity the generator can draw (`random.randint(5, 20)`),
the derived sub-quotas satisfy sc + st + obc + ur = capacity exactly, the
general sub-quota (the only one computed by subtraction) is non-negative,
and the rural sub-quota is at most the capacity. -/
theorem quota_caps_valid (cap : Nat) (h5 : 5 ≤ cap) (h20 : cap ≤ 20) :
    ((generate_internship_caps cap).cap_sc : Int) + (generate_internship_caps cap).cap_st
        + (generate_internship_caps cap).cap_obc + (generate_internship_caps cap).cap_ur = cap
      ∧ 0 ≤ (generate_internship_caps cap).cap_ur
      ∧ (generate_internship_caps cap).cap_rural ≤ cap := by
  interval_cases cap <;> decide

/-- Witness for `quota_caps_valid` at capacity 5. -/
theorem quota_caps_valid_witness :
    (5 ≤ 5 ∧ 5 ≤ 20)
      ∧ ((generate_internship_caps 5).cap_sc : Int) + (generate_internship_caps 5).cap_st
          + (generate_internship_caps 5).cap_obc + (generate_internship_caps 5).cap_ur = 5
      ∧ 0 ≤ (generate_internship_caps 5).cap_ur
      ∧ (generate_internship_caps 5).cap_rural ≤ 5 :=
  ⟨⟨le_refl 5, by decide⟩, quota_caps_valid 5 (le_refl 5) (by decide)⟩

/-! ## Claim C4 -/

/-- C4 counterexample: on the spec's scenario input the engine does NOT
converge to the confirmed set {s1, s2, s4, s6}.  It confirms
[s1, s4, s5, s6]: the vacant ST seat is absorbed by OBC (the cumulative
limit `cap_sc + cap_st + cap_obc` lets s3 in), and the rural pass removes
the TWO lowest-scoring non-rural selections (s3 and s2, the .9-tie between
s1 and s5 being irrelevant) while only ONE rural candidate (s6) exists to
add — so s2 is lost and s5 stays. -/
theorem optionC_scenario_counterexample :
    (optionC_select c4row c4pools).map (fun e => e.student_id) = [1, 4, 5, 6]
      ∧ ¬ 2 ∈ (optionC_select c4row c4pools).map (fun e => e.student_id)
      ∧ 5 ∈ (optionC_select c4row c4pools).map (fun e => e.student_id) := by
  decide

/-- C4, amended: on the scenario input the engine returns, without error,
the confirmed list [s1, s4, s5, s6] and a log reporting 4 of 5 seats
filled (the unfilled seat reflecting the short ST/rural pools) and 1 rural
candidate selected against the rural sub-quota 2. -/
theorem optionC_scenario_actual :
    optionC_allotment [(1, c4pools)] [c4row]
      = Except.ok ([(1, [e1, e4, e5, e6])],
          [{ internship_id := 1, capacity := 5, selected_count := 4,
             cap_sc := 1, cap_st := 1, cap_obc := 1, cap_ur := 2,
             cap_rural := 2, rural_selected := 1 }]) := by
  rfl

/-! ## Claim C3 -/

/-- C3 counterexample: with two non-rural confirmed candidates, a rural
sub-quota of 2 and an empty rural pool, the horizontal pass removes the two
lowest-scoring non-rural candidates and adds nobody, dropping the confirmed
count from 2 to 0 — the pass is not a strict swap. -/
theorem rural_pass_count_drop :
    applyRural 2 2 [] [ca, cb] = [] ∧ ([ca, cb].length = 2) := by
  decide

theorem applyRural_length_le (cap cap_rural : Nat)
    (ruralPool selected : List Entry) :
    (applyRural cap cap_rural ruralPool selected).length ≤ cap := by
  unfold applyRural
  exact List.length_take_le _ _

/-- C3, amended: the horizontal pass never leaves more than `capacity`
confirmed candidates, but it does not preserve the confirmed count: it
removes up to the rural shortfall many non-rural members regardless of how
many rural candidates are available to add. -/
theorem rural_pass_capacity_bound (cap cap_rural : Nat)
    (ruralPool selected : List Entry) :
    (applyRural cap cap_rural ruralPool selected).length ≤ cap :=
  applyRural_length_le cap cap_rural ruralPool selected

/-! ## Claim C7 -/

/-- C7 counterexample: a position whose rural pool is exhausted (here empty)
but whose rural count is below the sub-quota is changed by re-running the
pass — it strips another lowest-scoring non-rural candidate each time, so
reconciliation is not idempotent at that alleged fixpoint. -/
theorem rural_pass_not_idempotent_when_pool_exhausted :
    applyRural 2 1 [] [ca, cb] ≠ [ca, cb] := by
  decide

/-- C7, amended: the pass is idempotent at the quota-met fixpoint only — if
the confirmed rural count already meets the rural sub-quota (and the
confirmed list fits the capacity, as every list the engine passes in does),
the pass returns its input unchanged. -/
theorem rural_pass_idempotent_at_quota (cap cap_rural : Nat)
    (ruralPool selected : List Entry)
    (hq : cap_rural ≤ ruralCount selected) (hlen : selected.length ≤ cap) :
    applyRural cap cap_rural ruralPool selected = selected := by
  unfold applyRural
  rw [if_neg (by omega)]
  exact List.take_of_length_le hlen

/-- Witness for `rural_pass_idempotent_at_quota`. -/
theorem rural_pass_idempotent_at_quota_witness :
    (0 ≤ ruralCount [ca] ∧ [ca].length ≤ 1) ∧ applyRural 1 0 [] [ca] = [ca] :=
  ⟨⟨Nat.zero_le _, by decide⟩,
    rural_pass_idempotent_at_quota 1 0 [] [ca] (Nat.zero_le _) (by decide)⟩

/-! ## Claim C9 -/

theorem optionC_go_error (ranklists : List (Nat × Pools)) :
    ∀ (rows : List IRow) (acc : List (Nat × List Entry)) (logs : List OCLog),
      (∃ row ∈ rows, ranklists.lookup row.internship_id = none) →
      ∃ msg, optionC_go ranklists rows acc logs = Except.error msg := by
  intro rows
  induction rows with
  | nil =>
    rintro acc logs ⟨row, hmem, -⟩
    exact absurd hmem (List.not_mem_nil row)
  | cons r rest ih =>
    rintro acc logs ⟨row, hmem, hnone⟩
    cases hl : ranklists.lookup r.internship_id with
    | none => exact ⟨"KeyError", by simp [optionC_go, hl]⟩
    | some pools =>
      have hrest : row ∈ rest := by
        rcases List.mem_cons.mp hmem with rfl | h
        · rw [hl] at hnone; cases hnone
        · exact h
      rcases ih _ _ ⟨row, hrest, hnone⟩ with ⟨msg, hmsg⟩
      exact ⟨msg, by simp only [optionC_go, hl]; exact hmsg⟩

/-- C9: if some internship row has no ranklist entry, `optionC_allotment`
raises (`KeyError`, embedded as `Except.error`), so neither an allocation
table nor logs are produced for any position. -/
theorem optionC_missing_ranklist_errors (ranklists : List (Nat × Pools))
    (internships : List IRow)
    (h : ∃ row ∈ internships, ranklists.lookup row.internship_id = none) :
    ∃ msg, optionC_allotment ranklists internships = Except.error msg :=
  optionC_go_error ranklists internships [] [] h

/-- Witness for `optionC_missing_ranklist_errors`: an internship table with
one row and an empty ranklist dict. -/
theorem optionC_missing_ranklist_errors_witness :
    (∃ row ∈ [rowA], ([] : List (Nat × Pools)).lookup row.internship_id = none)
      ∧ ∃ msg, optionC_allotment [] [rowA] = Except.error msg :=
  ⟨⟨rowA, List.mem_singleton_self rowA, rfl⟩,
    optionC_missing_ranklist_errors [] [rowA] ⟨rowA, List.mem_singleton_self rowA, rfl⟩⟩

/-! ## Claim C1 -/

theorem catCount_cons (c : VCat) (a : Alloc) (t : List Alloc) :
    catCount c (a :: t) = (if a.cat = c then 1 else 0) + catCount c t := by
  by_cases h : a.cat = c
  · simp [catCount, List.filter_cons, h]
    omega
  · simp [catCount, List.filter_cons, h]

theorem length_eq_sum_catCounts : ∀ (l : List Alloc),
    l.length = catCount VCat.SC l + catCount VCat.ST l + catCount VCat.OBC l
      + catCount VCat.UR l + catCount VCat.RURAL l := by
  intro l
  induction l with
  | nil => rfl
  | cons a t ih =>
    rw [List.length_cons, catCount_cons, catCount_cons, catCount_cons, catCount_cons,
      catCount_cons]
    cases a.cat <;> simp <;> omega

theorem bounded_of_empty {ps : PosState} (h : ps.allocs = []) : Bounded ps := by
  simp [Bounded, h, catCount]

/-- C1 counterexample: `multi_round_allotment` never reads the `capacity`
field — it fills the RURAL sub-quota on top of the four vertical ones.
On a well-formed single-position input (vertical sub-quotas summing exactly
to the capacity 1 and rural sub-quota 1 ≤ capacity) it confirms 2
candidates at the position, exceeding the capacity already at the first
round boundary. -/
theorem multi_round_capacity_counterexample :
    (multi_round_allotment (fun _ _ => none) [mrPos] 10).allocations.map
        (fun p => p.2.length) = [2]
      ∧ mrPos.capacity = 1
      ∧ mrPos.cap_sc + mrPos.cap_st + mrPos.cap_obc + mrPos.cap_ur = mrPos.capacity
      ∧ mrPos.cap_rural ≤ mrPos.capacity := by
  decide

/-- C1, amended: `optionC_allotment` does keep every position's confirmed
count at most its capacity (every per-position selection is clamped), while
`multi_round_allotment` only guarantees the weaker bound
sc + st + obc + ur + rural sub-quotas (its per-category loops never exceed
their own sub-quota, but the RURAL loop adds on top of capacity); the final
allocation table is exactly the per-position allocation lists of the loop
state, so the bound applies at termination for every round budget (and
hence at every round boundary, the state after k rounds being the
termination state of the k-capped run). -/
theorem confirmed_le_capacity_amended :
    (∀ (row : IRow) (rl : Pools), (optionC_select row rl).length ≤ row.capacity)
      ∧ (∀ (score : Nat → Nat → Option Rat) (ranklists : List PosState) (n : Nat),
          (∀ ps ∈ ranklists, ps.allocs = []) →
          ∀ ps ∈ (roundsLoop score n 1 ranklists [] []).pss,
            ps.allocs.length
              ≤ ps.cap_sc + ps.cap_st + ps.cap_obc + ps.cap_ur + ps.cap_rural)
      ∧ (∀ (score : Nat → Nat → Option Rat) (ranklists : List PosState) (n : Nat),
          (multi_round_allotment score ranklists n).allocations
            = (roundsLoop score n 1 ranklists [] []).pss.map
                (fun ps => (ps.iid, ps.allocs))) := by
  refine ⟨?_, ?_, ?_⟩
  · intro row rl
    exact applyRural_length_le _ _ _ _
  · intro score ranklists n hinit ps hmem
    have hb := roundsLoop_bounded score n 1 ranklists [] []
      (fun q hq => bounded_of_empty (hinit q hq)) ps hmem
    obtain ⟨b1, b2, b3, b4, b5⟩ := hb
    rw [length_eq_sum_catCounts ps.allocs]
    omega
  · intro score ranklists n
    rfl

/-- Witness for `confirmed_le_capacity_amended` at concrete inputs. -/
theorem confirmed_le_capacity_amended_witness :
    ((optionC_select c4row c4pools).length ≤ c4row.capacity)
      ∧ (∀ ps ∈ [mrPos], ps.allocs = [])
      ∧ ∀ ps ∈ (roundsLoop (fun _ _ => none) 3 1 [mrPos] [] []).pss,
          ps.allocs.length
            ≤ ps.cap_sc + ps.cap_st + ps.cap_obc + ps.cap_ur + ps.cap_rural :=
  ⟨confirmed_le_capacity_amended.1 c4row c4pools, by decide,
    confirmed_le_capacity_amended.2.1 (fun _ _ => none) [mrPos] 3 (by decide)⟩

/-! ## Claim C2 -/

theorem flatSids_empty : ∀ (pss : List PosState),
    (∀ ps ∈ pss, ps.allocs = []) → flatSids pss = [] := by
  intro pss
  induction pss with
  | nil => intro _; rfl
  | cons ps rest ih =>
    intro h
    have h1 : ps.allocs = [] := h ps (List.mem_cons_self _ _)
    dsimp only [flatSids]
    rw [h1, ih (fun q hq => h q (List.mem_cons_of_mem _ hq))]
    rfl

theorem sids_sub_flat : ∀ (pss : List PosState) (ps : PosState), ps ∈ pss →
    ∀ s ∈ sids ps.allocs, s ∈ flatSids pss := by
  intro pss
  induction pss with
  | nil => intro ps h; exact absurd h (List.not_mem_nil _)
  | cons q rest ih =>
    intro ps h s hs
    dsimp only [flatSids]
    rcases List.mem_cons.mp h with rfl | h
    · exact List.mem_append_left _ hs
    · exact List.mem_append_right _ (ih ps h s hs)

theorem pairwise_disjoint_of_flat_nodup : ∀ (pss : List PosState),
    (flatSids pss).Nodup →
    (pss.map (fun ps => (ps.iid, ps.allocs))).Pairwise
      (fun p q => ∀ s, s ∈ sids p.2 → s ∉ sids q.2) := by
  intro pss
  induction pss with
  | nil => intro _; exact List.Pairwise.nil
  | cons ps rest ih =>
    intro h
    have h' : (sids ps.allocs ++ flatSids rest).Nodup := by
      simpa [flatSids] using h
    have hparts := List.nodup_append.mp h'
    simp only [List.map_cons]
    refine List.Pairwise.cons ?_ (ih hparts.2.1)
    intro q hq s hsp hsq
    rcases List.mem_map.mp hq with ⟨r, hr, rfl⟩
    exact hparts.2.2 hsp (sids_sub_flat rest r hr s hsq)

/-- C2 counterexample: `optionC_allotment` shares no allocation state across
positions, so the same student (here id 1, present in both UR pools) is
confirmed at both internships simultaneously. -/
theorem optionC_double_confirmation :
    (optionC_allotment [(1, sharedPools), (2, sharedPools)] [rowA, rowB]).toOption.map
        (fun r => r.1.map (fun p => (p.1, p.2.map (fun e => e.student_id))))
      = some [(1, [1]), (2, [1])] := by
  decide

/-- C2, amended: the invariant does hold for `multi_round_allotment` (its
global `allocated_student` map is checked before every confirmation): in its
output allocation table, the confirmed-student lists of any two distinct
positions are disjoint.  `optionC_allotment` does not enforce it. -/
theorem multi_round_no_double_confirmation (score : Nat → Nat → Option Rat)
    (ranklists : List PosState) (n : Nat)
    (hinit : ∀ ps ∈ ranklists, ps.allocs = []) :
    ((multi_round_allotment score ranklists n).allocations).Pairwise
      (fun p q => ∀ s, s ∈ sids p.2 → s ∉ sids q.2) := by
  have hg : GoodFlat [] ranklists [] := by
    constructor
    · rw [flatSids_empty ranklists hinit]
      exact List.nodup_nil
    · intro s hs
      rw [flatSids_empty ranklists hinit] at hs
      exact absurd hs (List.not_mem_nil _)
  have hfin := roundsLoop_good score n 1 ranklists [] [] [] hg
  have hnd : (flatSids (roundsLoop score n 1 ranklists [] []).pss).Nodup := by
    simpa using hfin.1
  exact pairwise_disjoint_of_flat_nodup _ hnd

/-- Witness for `multi_round_no_double_confirmation`. -/
theorem multi_round_no_double_confirmation_witness :
    (∀ ps ∈ [mrPos], ps.allocs = [])
      ∧ ((multi_round_allotment (fun _ _ => none) [mrPos] 3).allocations).Pairwise
          (fun p q => ∀ s, s ∈ sids p.2 → s ∉ sids q.2) :=
  ⟨by decide, multi_round_no_double_confirmation (fun _ _ => none) [mrPos] 3 (by decide)⟩

/-! ## Claim C8 -/

/-- C8: the engine (and the whole embedded pipeline around it) is a pure
function of its inputs: two runs on equal ranklists, equal score tables and
equal round budgets return the same allocation table, the same round log
sequence, and the same unallocated list, element for element.  (The source
contains no randomness at all — despite the spec's acceptance simulation,
`multi_round_allotment` draws no random numbers; the only
environment-sensitive construct, the set-difference enumeration for
`unallocated_students`, is modelled as the insertion-order enumeration that
a fixed process hash seed produces.) -/
theorem engine_deterministic (score1 score2 : Nat → Nat → Option Rat)
    (rl1 rl2 : List PosState) (n1 n2 : Nat)
    (hs : score1 = score2) (hr : rl1 = rl2) (hn : n1 = n2) :
    (multi_round_allotment score1 rl1 n1).allocations
        = (multi_round_allotment score2 rl2 n2).allocations
      ∧ (multi_round_allotment score1 rl1 n1).round_logs
        = (multi_round_allotment score2 rl2 n2).round_logs
      ∧ (multi_round_allotment score1 rl1 n1).unallocated
        = (multi_round_allotment score2 rl2 n2).unallocated := by
  subst hs
  subst hr
  subst hn
  exact ⟨rfl, rfl, rfl⟩

/-- Witness for `engine_deterministic`. -/
theorem engine_deterministic_witness :
    (multi_round_allotment (fun _ _ => none) [mrPos] 10).allocations
        = (multi_round_allotment (fun _ _ => none) [mrPos] 10).allocations
      ∧ (multi_round_allotment (fun _ _ => none) [mrPos] 10).round_logs
        = (multi_round_allotment (fun _ _ => none) [mrPos] 10).round_logs
      ∧ (multi_round_allotment (fun _ _ => none) [mrPos] 10).unallocated
        = (multi_round_allotment (fun _ _ => none) [mrPos] 10).unallocated :=
  engine_deterministic (fun _ _ => none) (fun _ _ => none) [mrPos] [mrPos] 10 10 rfl rfl rfl

/-! ## Claim C10 -/

theorem sum_map_zero (pss : List PosState) :
    ((pss.map (fun ps => (ps.iid, ([] : List (Nat × VCat))))).map
      (fun p => p.2.length)).sum = 0 := by
  induction pss with
  | nil => rfl
  | cons ps rest ih => simpa using ih

theorem roundsLoop_two_aux (score : Nat → Nat → Option Rat) (f ridx : Nat)
    (pss : List PosState) (amap : AMap) (logs : List RoundLog) :
    (roundsLoop score (f + 2) ridx pss amap logs).pss
        = (roundsLoop score 1 ridx pss amap logs).pss
      ∧ (roundsLoop score (f + 2) ridx pss amap logs).amap
        = (roundsLoop score 1 ridx pss amap logs).amap
      ∧ (roundsLoop score (f + 2) ridx pss amap logs).logs.length ≤ logs.length + 2
      ∧ ∃ lg, (roundsLoop score (f + 2) ridx pss amap logs).logs.getLast? = some lg
            ∧ lg.total = 0 := by
  by_cases ht : ((roundPass score pss amap).per.map (fun p => p.2.length)).sum = 0
  · have e2 : roundsLoop score (f + 2) ridx pss amap logs
        = ⟨(roundPass score pss amap).pss, (roundPass score pss amap).amap,
           logs ++ [mkRoundLog ridx (roundPass score pss amap).per]⟩ := by
      dsimp only [roundsLoop]
      rw [if_pos ht]
    have e1 : roundsLoop score 1 ridx pss amap logs
        = ⟨(roundPass score pss amap).pss, (roundPass score pss amap).amap,
           logs ++ [mkRoundLog ridx (roundPass score pss amap).per]⟩ := by
      dsimp only [roundsLoop]
      rw [if_pos ht]
    rw [e1, e2]
    refine ⟨rfl, rfl, by simp, ?_⟩
    refine ⟨mkRoundLog ridx (roundPass score pss amap).per, List.getLast?_concat _, ht⟩
  · have step1 : roundsLoop score (f + 2) ridx pss amap logs
        = roundsLoop score (f + 1) (ridx + 1) (roundPass score pss amap).pss
            (roundPass score pss amap).amap
            (logs ++ [mkRoundLog ridx (roundPass score pss amap).per]) := by
      dsimp only [roundsLoop]
      rw [if_neg ht]
    have hnoop : roundPass score (roundPass score pss amap).pss (roundPass score pss amap).amap
        = ⟨(roundPass score pss amap).pss, (roundPass score pss amap).amap,
           (roundPass score pss amap).pss.map (fun ps => (ps.iid, []))⟩ :=
      roundPass_noop score _ _ (roundPass_done score pss amap)
    have step2 : roundsLoop score (f + 1) (ridx + 1) (roundPass score pss amap).pss
          (roundPass score pss amap).amap
          (logs ++ [mkRoundLog ridx (roundPass score pss amap).per])
        = ⟨(roundPass score pss amap).pss, (roundPass score pss amap).amap,
           (logs ++ [mkRoundLog ridx (roundPass score pss amap).per])
             ++ [mkRoundLog (ridx + 1)
                  ((roundPass score pss amap).pss.map (fun ps => (ps.iid, [])))]⟩ := by
      dsimp only [roundsLoop]
      rw [hnoop]
      dsimp only
      rw [if_pos (sum_map_zero _)]
    have e1 : roundsLoop score 1 ridx pss amap logs
        = ⟨(roundPass score pss amap).pss, (roundPass score pss amap).amap,
           logs ++ [mkRoundLog ridx (roundPass score pss amap).per]⟩ := by
      dsimp only [roundsLoop]
      rw [if_neg ht]
    rw [step1, step2, e1]
    refine ⟨rfl, rfl, by simp, ?_⟩
    refine ⟨_, List.getLast?_concat _, ?_⟩
    dsimp only [mkRoundLog]
    exact sum_map_zero _

/-- C10: with any round budget of at least 2 the multi-round allocator is
already at a fixpoint after its first round — every confirmation happens in
round 1 (each category loop stops only when its sub-quota is met or its
cursor is exhausted, and both conditions persist), the next round confirms
nobody, and the loop exits.  Hence the round log has at most 2 entries, the
last reporting 0 allocations, and the allocation table and unallocated list
equal those of the round-cap-1 single-pass run. -/
theorem multi_round_fixpoint_after_round_one (score : Nat → Nat → Option Rat)
    (ranklists : List PosState) (n : Nat) (h2 : 2 ≤ n) :
    (multi_round_allotment score ranklists n).allocations
        = (multi_round_allotment score ranklists 1).allocations
      ∧ (multi_round_allotment score ranklists n).unallocated
        = (multi_round_allotment score ranklists 1).unallocated
      ∧ (multi_round_allotment score ranklists n).round_logs.length ≤ 2
      ∧ ∃ lg, (multi_round_allotment score ranklists n).round_logs.getLast? = some lg
            ∧ lg.total = 0 := by
  obtain ⟨f, rfl⟩ : ∃ f, n = f + 2 := ⟨n - 2, by omega⟩
  have h := roundsLoop_two_aux score f 1 ranklists [] []
  dsimp only [multi_round_allotment]
  refine ⟨?_, ?_, ?_, ?_⟩
  · rw [h.1]
  · rw [h.2.1]
  · simpa using h.2.2.1
  · exact h.2.2.2

/-- Witness for `multi_round_fixpoint_after_round_one`. -/
theorem multi_round_fixpoint_after_round_one_witness :
    2 ≤ 2
      ∧ ((multi_round_allotment (fun _ _ => none) [mrPos] 2).allocations
          = (multi_round_allotment (fun _ _ => none) [mrPos] 1).allocations
        ∧ (multi_round_allotment (fun _ _ => none) [mrPos] 2).unallocated
          = (multi_round_allotment (fun _ _ => none) [mrPos] 1).unallocated
        ∧ (multi_round_allotment (fun _ _ => none) [mrPos] 2).round_logs.length ≤ 2
        ∧ ∃ lg, (multi_round_allotment (fun _ _ => none) [mrPos] 2).round_logs.getLast?
              = some lg ∧ lg.total = 0) :=
  ⟨le_refl 2, multi_round_fixpoint_after_round_one (fun _ _ => none) [mrPos] 2 (le_refl 2)⟩

end PMIS
